import Mathlib

/-!
Verification of the lens-curve projection engine and axis coordinate mapper of
the phone-camera comparison website.

Numbers are modelled as rationals: every operation the verified code performs
on its numeric data (addition, subtraction, multiplication, division,
comparison, rounding to one decimal) is exact on the rationals, so the rational
model is the ideal-arithmetic reading of the JavaScript source.

Sources embedded below:
- src/app/page.tsx            (aperture chart: transformFocalLengthToXCoordinate,
                               loadData point generation, calculateApertureAtFocalLength)
- src/app/sensor-size/page.tsx (sensor chart: mapSensorValueToEquidistantYPosition,
                               calculateEquivalentSensorSize, calculateSensorSizeAtFocalLength,
                               and the connector-generating chart variant's loadData
                               point generation together with its stable sort)
-/

set_option maxHeartbeats 1000000

namespace PhoneCam

/-- A valid lens record: `focalLength` and `aperture` are numbers; the physical
aperture and conversion factor are optional, as in the JSON data
(`originalLenses` entries of chart-enhanced.json). `aperture` is the lens's
equivalent aperture, i.e. the spec's `opticalValue`. -/
structure LensV where
  focalLength : ℚ
  aperture : ℚ
  physicalApertureValue : Option ℚ
  conversionFactor : Option ℚ
  deriving DecidableEq, Repr

/-- A raw lens entry as it may arrive from JSON: `focalLength` or `aperture`
may be missing or non-numeric (modelled as `none`), which the loaders detect
with `typeof ... !== 'number'` checks. -/
structure RawLens where
  focalLength : Option ℚ
  aperture : Option ℚ
  physicalApertureValue : Option ℚ
  conversionFactor : Option ℚ
  deriving DecidableEq, Repr

/-- The raw form of a valid lens. -/
def rawOf (l : LensV) : RawLens :=
  ⟨some l.focalLength, some l.aperture, l.physicalApertureValue, l.conversionFactor⟩

/-- The validity test of the loaders:
`typeof lens.focalLength === 'number' && typeof lens.aperture === 'number'`. -/
def RawLens.valid (r : RawLens) : Bool :=
  r.focalLength.isSome && r.aperture.isSome

/-- The valid view of a raw lens, when both required fields are numbers. -/
def RawLens.view (r : RawLens) : Option LensV :=
  match r.focalLength, r.aperture with
  | some f, some a => some ⟨f, a, r.physicalApertureValue, r.conversionFactor⟩
  | _, _ => none

/-- Point types emitted by the two chart loaders (string tags in the source). -/
inductive PointType where
  | actual
  | theoreticalEnd
  | actualForVerticalLine
  | theoreticalExtensionTo200mm
  | generatedConnector
  | theoreticalSegmentEnd
  deriving DecidableEq, Repr

/-- One emitted chart point. `x` is the chart x-coordinate, `y` the plotted
value, `originalFocalLength` the focal length in mm the point represents (the
spec's `axisFocalLength`), and `basisFocalLength`/`basisAperture` record which
lens's parameters produced the point (the spec's `basisLens`), as the source
stores in each point's `details`. -/
structure Pt where
  x : ℚ
  y : ℚ
  originalFocalLength : ℚ
  basisFocalLength : ℚ
  basisAperture : ℚ
  pointType : PointType
  deriving DecidableEq, Repr

/-! ### Axis coordinate mapper, src/app/page.tsx lines 89-138 -/

/-- JavaScript `Array.prototype.findIndex` (as used with predicate
`tick => tick >= focalLength`), returning the index of the first element
satisfying the predicate, `none` for JavaScript's `-1`. -/
def findIndexAux (p : ℚ → Bool) : List ℚ → ℕ → Option ℕ
  | [], _ => none
  | t :: ts, i => if p t then some i else findIndexAux p ts (i + 1)

/-- The in-segment interpolation of `transformFocalLengthToXCoordinate`
(src/app/page.tsx lines 129-137): `j` is `insertIndex - 1`; the code returns
`insertIndex - 1` when the segment is degenerate, else interpolates linearly. -/
def segPos (j : ℕ) (prevTick nextTick v : ℚ) : ℚ :=
  if nextTick - prevTick = 0 then (j : ℚ)
  else (j : ℚ) + (v - prevTick) / (nextTick - prevTick)

/-- src/app/page.tsx lines 89-138, `transformFocalLengthToXCoordinate`:
maps a focal length onto the equidistant categorical x-axis defined by
`majorFocalLengths`. The unreachable trailing `return` of the source's
`insertIndex === -1` branch (dead code after an always-true length test)
is omitted. -/
def transformFocalLengthToXCoordinate (focalLength : ℚ) (majorFocalLengths : List ℚ) : ℚ :=
  if majorFocalLengths = [] then focalLength
  else
    match findIndexAux (fun tick => focalLength ≤ tick) majorFocalLengths 0 with
    | none =>
        let lastTickVal := majorFocalLengths.getD (majorFocalLengths.length - 1) 0
        let secondLastTickVal :=
          if 1 < majorFocalLengths.length then majorFocalLengths.getD (majorFocalLengths.length - 2) 0
          else 0
        let lastSegmentLength := lastTickVal - secondLastTickVal
        if 0 < lastSegmentLength then
          ((majorFocalLengths.length - 1 : ℕ) : ℚ) + (focalLength - lastTickVal) / lastSegmentLength
        else ((majorFocalLengths.length - 1 : ℕ) : ℚ)
    | some 0 =>
        if focalLength = majorFocalLengths.getD 0 0 then 0
        else
          let firstSegmentLength :=
            if 1 < majorFocalLengths.length then
              majorFocalLengths.getD 1 0 - majorFocalLengths.getD 0 0
            else majorFocalLengths.getD 0 0
          if 0 < firstSegmentLength then
            (focalLength - majorFocalLengths.getD 0 0) / firstSegmentLength
          else 0
    | some (j + 1) =>
        segPos j (majorFocalLengths.getD j 0) (majorFocalLengths.getD (j + 1) 0) focalLength

/-! ### Aperture chart point generation, src/app/page.tsx lines 174-240 -/

/-- The `y_theoretical_end_i` / `y_at_200mm` computation of src/app/page.tsx
lines 200-205 and 225-230: when both physical parameters are numbers and the
focal length is nonzero, project with the physical formula; otherwise keep the
lens's own (equivalent) aperture as the default. -/
def theoreticalEndY (f a : ℚ) (p c : Option ℚ) (targetFL : ℚ) : ℚ :=
  match p, c with
  | some pv, some cv => if f ≠ 0 then (pv * cv / f) * targetFL else a
  | _, _ => a

/-- The `pointType: 'actual'` point of src/app/page.tsx lines 184-190. -/
def actualPt (ticks : List ℚ) (l : LensV) : Pt :=
  ⟨transformFocalLengthToXCoordinate l.focalLength ticks, l.aperture,
   l.focalLength, l.focalLength, l.aperture, .actual⟩

/-- The `pointType: 'theoretical_end'` point of src/app/page.tsx lines 206-212. -/
def theoreticalEndPt (ticks : List ℚ) (cur next : LensV) : Pt :=
  ⟨transformFocalLengthToXCoordinate next.focalLength ticks,
   theoreticalEndY cur.focalLength cur.aperture cur.physicalApertureValue cur.conversionFactor
     next.focalLength,
   next.focalLength, cur.focalLength, cur.aperture, .theoreticalEnd⟩

/-- The `pointType: 'actual_for_vertical_line'` point of src/app/page.tsx
lines 214-221 (its `details` are the next lens). -/
def verticalLinePt (ticks : List ℚ) (next : LensV) : Pt :=
  ⟨transformFocalLengthToXCoordinate next.focalLength ticks, next.aperture,
   next.focalLength, next.focalLength, next.aperture, .actualForVerticalLine⟩

/-- The `pointType: 'theoretical_extension_to_200mm'` point of
src/app/page.tsx lines 231-237. -/
def extensionTo200Pt (ticks : List ℚ) (cur : LensV) : Pt :=
  ⟨transformFocalLengthToXCoordinate 200 ticks,
   theoreticalEndY cur.focalLength cur.aperture cur.physicalApertureValue cur.conversionFactor 200,
   200, cur.focalLength, cur.aperture, .theoreticalExtensionTo200mm⟩

/-- The per-lens loop of the aperture chart's `loadData`
(src/app/page.tsx lines 175-239): skip invalid lenses; emit the actual point;
for a non-last lens whose successor is valid, emit the theoretical end and the
vertical-line duplicate; for the last lens, emit the 200mm extension. A `continue`
fires when the next lens is invalid, after the actual point was pushed. -/
def aperturePageAux (ticks : List ℚ) : List RawLens → List Pt
  | [] => []
  | [r] =>
      match r.view with
      | some cur => [actualPt ticks cur, extensionTo200Pt ticks cur]
      | none => []
  | r :: rn :: rest =>
      (match r.view with
       | some cur =>
           match rn.view with
           | some next =>
               [actualPt ticks cur, theoreticalEndPt ticks cur next, verticalLinePt ticks next]
           | none => [actualPt ticks cur]
       | none => []) ++ aperturePageAux ticks (rn :: rest)

/-- The aperture chart's `loadData` point generation (src/app/page.tsx lines
174-240), guarded by `originalLenses.length > 0 && MAJOR_FOCAL_LENGTHS_NUM.length > 0`. -/
def aperturePagePoints (ticks : List ℚ) (lenses : List RawLens) : List Pt :=
  if ticks = [] then [] else aperturePageAux ticks lenses

/-! ### Connector-generating aperture chart variant,
src/app/sensor-size/page.tsx lines 1347-1444 (second embedded document) -/

/-- The simplified ratio projection of the connector variant
(src/app/sensor-size/page.tsx lines 1383-1385 and 1405-1407):
`aperture × (targetFL / focalLength)`, keeping the aperture when the focal
length is zero. -/
def connectorY (f a targetFL : ℚ) : ℚ :=
  if f ≠ 0 then a * (targetFL / f) else a

/-- The connector variant's `pointType: 'actual'` point (lines 1369-1375);
this chart uses the raw focal length as the x-coordinate. -/
def connActualPt (l : LensV) : Pt :=
  ⟨l.focalLength, l.aperture, l.focalLength, l.focalLength, l.aperture, .actual⟩

/-- The `pointType: 'generated_connector'` point (lines 1386-1398). -/
def connectorPt (cur : LensV) (m : ℚ) : Pt :=
  ⟨m, connectorY cur.focalLength cur.aperture m, m, cur.focalLength, cur.aperture,
   .generatedConnector⟩

/-- The `pointType: 'theoretical_segment_end'` point (lines 1408-1420). -/
def segmentEndPt (cur : LensV) (e : ℚ) : Pt :=
  ⟨e, connectorY cur.focalLength cur.aperture e, e, cur.focalLength, cur.aperture,
   .theoreticalSegmentEnd⟩

/-- One loop iteration of the connector variant (lines 1359-1422): skip an
invalid current lens; otherwise emit the actual point, a connector at every
major focal length strictly between the lens and `extendTo`, and the segment
end at `extendTo` when it lies beyond the lens. `extendTo` is the next raw
lens's `focalLength` (possibly missing, in which case every comparison against
it is false, as with JavaScript `undefined`) or 200 for the last lens. -/
def emitSegment (ticks : List ℚ) (r : RawLens) (extendTo : Option ℚ) : List Pt :=
  match r.view with
  | none => []
  | some cur =>
      let inRange : ℚ → Bool := fun m =>
        decide (cur.focalLength < m) &&
          (match extendTo with
           | some e => decide (m < e)
           | none => false)
      connActualPt cur ::
        ((ticks.filter inRange).map (connectorPt cur) ++
          (match extendTo with
           | some e => if cur.focalLength < e then [segmentEndPt cur e] else []
           | none => []))

/-- The full emission loop of the connector variant over the sorted lens list. -/
def connPointsAux (ticks : List ℚ) : List RawLens → List Pt
  | [] => []
  | [r] => emitSegment ticks r (some 200)
  | r :: rn :: rest => emitSegment ticks r rn.focalLength ++ connPointsAux ticks (rn :: rest)

/-- Comparator of the pre-sort of lenses `(a, b) => a.focalLength - b.focalLength`
(line 1349), read as the non-strict keep-order relation of a stable sort: `a`
may stay before `b` unless the comparator is positive. A missing focal length
compares as `NaN`, which JavaScript treats as 0, so such pairs keep their order. -/
def lensLeB (a b : RawLens) : Bool :=
  match a.focalLength, b.focalLength with
  | some x, some y => decide (x ≤ y)
  | _, _ => true

/-- JavaScript's `Array.prototype.sort` is stable; any stable sort of a given
comparator computes the same list, so it is modelled by insertion sort. -/
def sortLensesByFocal (lenses : List RawLens) : List RawLens :=
  lenses.insertionSort (fun a b => lensLeB a b = true)

/-- The keep-order relation of the point sort `(a, b) => a.x < b.x ? -1 :
a.x > b.x ? 1 : 0` (lines 1428-1436): points with equal `x` keep their push
order (the comment in the source says this is what makes vertical jumps draw
correctly). -/
def ptLE (p q : Pt) : Prop := p.x ≤ q.x

instance : DecidableRel ptLE := fun p q => inferInstanceAs (Decidable (p.x ≤ q.x))

instance : IsTotal Pt ptLE := ⟨fun p q => le_total p.x q.x⟩

instance : IsTrans Pt ptLE := ⟨fun _ _ _ h h2 => le_trans h h2⟩

/-- The stable sort of emitted points by x (lines 1428-1436). -/
def stableSortByX (pts : List Pt) : List Pt :=
  pts.insertionSort ptLE

/-- The connector variant's `loadData` point generation (src/app/sensor-size/page.tsx
lines 1347-1444): sort the lenses by focal length, emit every segment, then
stable-sort the points by x. Guarded by
`originalLenses.length > 0 && MAJOR_FOCAL_LENGTHS_NUM.length > 0`. -/
def connectorPagePoints (ticks : List ℚ) (lenses : List RawLens) : List Pt :=
  if ticks = [] then []
  else stableSortByX (connPointsAux ticks (sortLensesByFocal lenses))

/-! ### Table calculation, src/app/page.tsx lines 595-649 -/

/-- JavaScript `Number(q.toFixed(1))`: round to one decimal place. -/
def round1 (q : ℚ) : ℚ := (round (10 * q) : ℤ) / 10

/-- A chart dataset as consulted by `calculateApertureAtFocalLength`
(src/app/page.tsx lines 630-637); only `originalLenses` is read. -/
structure Dataset where
  originalLenses : List LensV
  deriving DecidableEq, Repr

/-- The best-lens loop of src/app/page.tsx lines 607-619: among lenses at or
below the target focal length, the one with the smallest distance, keeping the
earlier lens on ties (the update condition is a strict `<`). -/
def findBestLens (targetFocal : ℚ) (lenses : List LensV) : Option LensV :=
  lenses.foldl
    (fun acc lens =>
      if lens.focalLength ≤ targetFocal then
        match acc with
        | none => some lens
        | some b =>
            if targetFocal - lens.focalLength < targetFocal - b.focalLength then some lens
            else some b
      else acc)
    none

/-- The `reduce` fallback of src/app/page.tsx lines 622-627: the lens closest
to the target in absolute distance, keeping the earlier lens on ties. -/
def closestLens (targetFocal : ℚ) (first : LensV) (rest : List LensV) : LensV :=
  rest.foldl
    (fun closest lens =>
      if |lens.focalLength - targetFocal| < |closest.focalLength - targetFocal| then lens
      else closest)
    first

/-- src/app/page.tsx lines 595-649, `calculateApertureAtFocalLength`:
the per-focal-length equivalent-aperture table calculation. Returns `none` for
an empty lens list or a target below the minimum native focal length; returns
the native aperture on an exact match; otherwise picks the basis lens, looks up
its physical parameters in the datasets (a truthiness test, so a zero value
also falls through), and projects with the physical formula or the ratio
fallback, rounding to one decimal as `Number(x.toFixed(1))` does. -/
def calculateApertureAtFocalLength (targetFocal : ℚ) (lenses : List LensV)
    (datasets : List Dataset) : Option ℚ :=
  match lenses with
  | [] => none
  | l0 :: lrest =>
      let minFocal := ((l0 :: lrest).map (fun l => l.focalLength)).foldl min l0.focalLength
      if targetFocal < minFocal then none
      else
        match (l0 :: lrest).find? (fun l => l.focalLength = targetFocal) with
        | some exact => some exact.aperture
        | none =>
            let bestLens :=
              match findBestLens targetFocal (l0 :: lrest) with
              | some b => b
              | none => closestLens targetFocal l0 lrest
            let physParams : Option (ℚ × ℚ) :=
              match (datasets.find? (fun d =>
                  d.originalLenses.any (fun l =>
                    l.focalLength = bestLens.focalLength ∧ l.aperture = bestLens.aperture))) with
              | some d =>
                  match (d.originalLenses.find? (fun l =>
                      l.focalLength = bestLens.focalLength ∧ l.aperture = bestLens.aperture)) with
                  | some originalLens =>
                      match originalLens.physicalApertureValue, originalLens.conversionFactor with
                      | some pv, some cv => if pv ≠ 0 ∧ cv ≠ 0 then some (pv, cv) else none
                      | _, _ => none
                  | none => none
              | none => none
            match physParams with
            | some (pv, cv) => some (round1 ((pv * cv / bestLens.focalLength) * targetFocal))
            | none => some (round1 (bestLens.aperture * (targetFocal / bestLens.focalLength)))

/-! ### Sensor-size axis mapper and calculation, src/app/sensor-size/page.tsx -/

/-- One `(value, label)` axis tick definition (`SensorAxisDefinition`). -/
structure TickDef where
  value : ℚ
  label : String
  deriving DecidableEq, Repr

/-- The bracketing loop of `mapSensorValueToEquidistantYPosition`
(src/app/sensor-size/page.tsx lines 184-199): find the first adjacent pair
`upper` (position `i`), `lower` (position `i+1`) with
`lower.value < v ≤ upper.value` and interpolate, returning `i` directly on a
degenerate pair. -/
def mapSensorLoop (v : ℚ) : ℕ → List TickDef → Option ℚ
  | i, upperDef :: lowerDef :: rest =>
      if v ≤ upperDef.value ∧ lowerDef.value < v then
        some (if upperDef.value = lowerDef.value then (i : ℚ)
              else ((i : ℚ) + 1) - (v - lowerDef.value) / (upperDef.value - lowerDef.value))
      else mapSensorLoop v (i + 1) (lowerDef :: rest)
  | _, _ => none

/-- src/app/sensor-size/page.tsx lines 168-205,
`mapSensorValueToEquidistantYPosition`, parameterized by the tick-definition
list (the source reads the module constant `CUSTOM_SENSOR_Y_AXIS_DEFINITIONS`,
a descending list): snap to position 0 at or above the first (largest) value,
snap to the last index at or below the last (smallest) value, otherwise
interpolate inside the bracketing pair, with the last index as the loop's
fallback. -/
def mapSensorBody (d0 : TickDef) (drest : List TickDef) (v : ℚ) : Option ℚ :=
  if d0.value ≤ v then some 0
  else if v ≤ ((d0 :: drest).getD ((d0 :: drest).length - 1) ⟨0, ""⟩).value then
    some (((d0 :: drest).length - 1 : ℕ) : ℚ)
  else
    match mapSensorLoop v 0 (d0 :: drest) with
    | some pos => some pos
    | none => some (((d0 :: drest).length - 1 : ℕ) : ℚ)

def mapSensorValueToEquidistantYPosition (defs : List TickDef) (sensorValue : Option ℚ) :
    Option ℚ :=
  match sensorValue with
  | none => none
  | some v =>
      match defs with
      | [] => none
      | d0 :: drest => mapSensorBody d0 drest v

/-- src/app/sensor-size/page.tsx lines 112-130, `calculateEquivalentSensorSize`
on the already-parsed sensor-size fraction (the string parsing of
`parseSensorSize` is outside the claims): divide by the crop factor, and
re-base sub-half-inch sensors from the 18mm to the 16mm diagonal convention. -/
def calculateEquivalentSensorSize (originalSize originalFocalLength targetFocalLength : ℚ) : ℚ :=
  let cropFactor := targetFocalLength / originalFocalLength
  let equivalentSize := originalSize / cropFactor
  if originalSize < 1 / 2 then
    let actualDiagonal18mm := 18 * originalSize
    let croppedDiagonal18mm := actualDiagonal18mm / cropFactor
    (croppedDiagonal18mm / 18) * (18 / 16)
  else equivalentSize

/-- A `lensDetails` entry as read by the sensor calculation; `sensorSize` is
the parsed sensor-size fraction, `none` when the field is missing or empty. -/
structure SensorDetail where
  sensorSize : Option ℚ
  deriving DecidableEq, Repr

/-- Lookup `lensDetails[focalLength.toString()]`, modelled as an association
list keyed by the focal length. -/
def detailFor (details : List (ℚ × SensorDetail)) (f : ℚ) : Option SensorDetail :=
  (details.find? (fun kv => kv.1 = f)).map (fun kv => kv.2)

/-- src/app/sensor-size/page.tsx lines 721-779, `calculateSensorSizeAtFocalLength`,
reduced to its `size` field: native lenses answer directly when their sensor
spec is present; otherwise a target below the minimum native focal length
yields `none`; otherwise the best basis lens (or, failing that, the
largest-focal-length lens) projects its sensor size, `none` when its spec is
missing. -/
def calculateSensorSizeAtFocalLength (targetFocal : ℚ) (lenses : List LensV)
    (details : List (ℚ × SensorDetail)) : Option ℚ :=
  match lenses with
  | [] => none
  | l0 :: lrest =>
      let nativeResult : Option ℚ :=
        match (l0 :: lrest).find? (fun l => l.focalLength = targetFocal) with
        | some _ =>
            match detailFor details targetFocal with
            | some d =>
                match d.sensorSize with
                | some s => some (calculateEquivalentSensorSize s targetFocal targetFocal)
                | none => none
            | none => none
        | none => none
      match nativeResult with
      | some r => some r
      | none =>
          let minFocal := ((l0 :: lrest).map (fun l => l.focalLength)).foldl min l0.focalLength
          if targetFocal < minFocal then none
          else
            let bestLens :=
              match findBestLens targetFocal (l0 :: lrest) with
              | some b => b
              | none =>
                  lrest.foldl
                    (fun (prev cur : LensV) =>
                      if prev.focalLength > cur.focalLength then prev else cur) l0
            match detailFor details bestLens.focalLength with
            | some d =>
                match d.sensorSize with
                | some s =>
                    some (calculateEquivalentSensorSize s bestLens.focalLength targetFocal)
                | none => none
            | none => none

/-! ### Concrete inputs used by witnesses and counterexamples -/

/-- The chart's reference focal lengths, from chart-enhanced.json's labels
"12mm" .. "200mm" (spec section 3). -/
def refTicks : List ℚ := [12, 16, 24, 28, 35, 50, 75, 85, 105, 120, 135, 200]

/-- A 24mm F2.0 lens without physical parameters. -/
def lensA : LensV := ⟨24, 2, none, none⟩

/-- A 48mm F4.0 lens without physical parameters. -/
def lensB : LensV := ⟨48, 4, none, none⟩

/-- A 250mm F8.0 lens without physical parameters, beyond the 200mm ceiling. -/
def lensC : LensV := ⟨250, 8, none, none⟩

/-- A raw lens entry whose focal length is missing (non-numeric). -/
def badLens : RawLens := ⟨none, some 4, none, none⟩

/-- `SubRun a l` holds when `a` occurs as a contiguous run inside `l`. -/
def SubRun (a l : List Pt) : Prop := ∃ s t, l = s ++ a ++ t

/-! ### Helper lemmas -/

theorem foldl_min_le (l : List ℚ) (a : ℚ) : l.foldl min a ≤ a := by
  induction l generalizing a with
  | nil => simp
  | cons x xs ih => exact le_trans (ih (min a x)) (min_le_left a x)

theorem foldl_min_le_of_mem {x : ℚ} :
    ∀ (l : List ℚ) (a : ℚ), x ∈ l → l.foldl min a ≤ x := by
  intro l
  induction l with
  | nil => intro a h; cases h
  | cons y ys ih =>
      intro a h
      rcases List.mem_cons.mp h with h | h
      · subst h
        exact le_trans (foldl_min_le ys (min a x)) (min_le_right a x)
      · exact ih (min a y) h

theorem lt_foldl_min {t : ℚ} :
    ∀ (l : List ℚ) (a : ℚ), t < a → (∀ x ∈ l, t < x) → t < l.foldl min a := by
  intro l
  induction l with
  | nil => intro a ha _; simpa using ha
  | cons y ys ih =>
      intro a ha h
      exact ih (min a y) (lt_min ha (h y (List.mem_cons_self y ys)))
        (fun x hx => h x (List.mem_cons_of_mem y hx))

theorem find?_focal_self {L : LensV} :
    ∀ (lenses : List LensV),
      lenses.Pairwise (fun p q => p.focalLength ≠ q.focalLength) → L ∈ lenses →
      lenses.find? (fun l => l.focalLength = L.focalLength) = some L := by
  intro lenses
  induction lenses with
  | nil => intro _ h; cases h
  | cons y ys ih =>
      intro hpw hmem
      rcases List.mem_cons.mp hmem with h | h
      · subst h
        simp [List.find?]
      · have hne : y.focalLength ≠ L.focalLength :=
          (List.pairwise_cons.mp hpw).1 L h
        have : (fun l : LensV => decide (l.focalLength = L.focalLength)) y = false := by
          simp [hne]
        rw [List.find?_cons_of_neg _ (by simpa using hne)]
        exact ih (List.pairwise_cons.mp hpw).2 h

theorem find?_focal_none {t : ℚ} :
    ∀ (lenses : List LensV), (∀ l ∈ lenses, l.focalLength ≠ t) →
      lenses.find? (fun l => l.focalLength = t) = none := by
  intro lenses
  induction lenses with
  | nil => intro _; rfl
  | cons y ys ih =>
      intro h
      rw [List.find?_cons_of_neg _ (by simpa using h y (List.mem_cons_self y ys))]
      exact ih (fun l hl => h l (List.mem_cons_of_mem y hl))

theorem rawOf_view (l : LensV) : (rawOf l).view = some l := rfl

theorem mem_emitSegment_bound {ticks : List ℚ} {r : RawLens} {ext : Option ℚ} {p : Pt}
    (hp : p ∈ emitSegment ticks r ext) :
    ∃ cur, r.view = some cur ∧ cur.focalLength ≤ p.x := by
  unfold emitSegment at hp
  cases hv : r.view with
  | none => rw [hv] at hp; cases hp
  | some cur =>
      rw [hv] at hp
      refine ⟨cur, rfl, ?_⟩
      rcases List.mem_cons.mp hp with h | h
      · subst h; exact le_refl _
      · rcases List.mem_append.mp h with h | h
        · rcases List.mem_map.mp h with ⟨m, hm, rfl⟩
          have := List.of_mem_filter hm
          simp only [Bool.and_eq_true, decide_eq_true_eq] at this
          exact this.1.le
        · cases ext with
          | none => cases h
          | some e =>
              have h2 : p ∈ (if cur.focalLength < e then [segmentEndPt cur e] else []) := h
              by_cases he : cur.focalLength < e
              · rw [if_pos he] at h2
                rcases List.mem_singleton.mp h2 with rfl
                exact he.le
              · rw [if_neg he] at h2; cases h2

theorem mem_connPointsAux_bound {ticks : List ℚ} {p : Pt} :
    ∀ (rs : List RawLens), p ∈ connPointsAux ticks rs →
      ∃ r ∈ rs, ∃ cur, r.view = some cur ∧ cur.focalLength ≤ p.x := by
  intro rs
  induction rs with
  | nil => intro h; cases h
  | cons r rest ih =>
      intro hp
      cases rest with
      | nil =>
          obtain ⟨cur, hv, hle⟩ := @mem_emitSegment_bound ticks r (some 200) p hp
          exact ⟨r, List.mem_cons_self r [], cur, hv, hle⟩
      | cons rn rest2 =>
          rw [connPointsAux] at hp
          rcases List.mem_append.mp hp with h | h
          · obtain ⟨cur, hv, hle⟩ := mem_emitSegment_bound h
            exact ⟨r, List.mem_cons_self _ _, cur, hv, hle⟩
          · obtain ⟨r2, hr2, cur, hv, hle⟩ := ih h
            exact ⟨r2, List.mem_cons_of_mem r hr2, cur, hv, hle⟩

/-- C1 counterexample: the aperture chart assigns target focal length 48 (the
next lens's focal length) to the 24mm F2.0 basis lens `lensA`, whose physical
parameters are absent; the emitted theoretical-end value is the lens's own
aperture 2, not `opticalValue × (targetFL / focalLength) = 4` as the claim
requires (src/app/page.tsx line 200: the fallback keeps `currentLens.aperture`). -/
theorem C1_counterexample :
    aperturePagePoints refTicks [rawOf lensA, rawOf lensB] =
      [actualPt refTicks lensA, theoreticalEndPt refTicks lensA lensB,
       verticalLinePt refTicks lensB, actualPt refTicks lensB,
       extensionTo200Pt refTicks lensB] ∧
    lensA.physicalApertureValue = none ∧
    0 < lensA.focalLength ∧ lensA.focalLength ≤ lensB.focalLength ∧
    (theoreticalEndPt refTicks lensA lensB).y = 2 ∧
    lensA.aperture * (lensB.focalLength / lensA.focalLength) = 4 ∧ (2 : ℚ) ≠ 4 := by
  refine ⟨rfl, rfl, by norm_num [lensA], by norm_num [lensA, lensB], rfl,
    by norm_num [lensA, lensB], by norm_num⟩

/-- C1 (amended): in the aperture chart's point generation, when
`physicalApertureValue` or `conversionFactor` is absent, the projected value at
any target focal length falls back to the basis lens's own aperture unchanged;
the ratio formula `opticalValue × (targetFL / focalLength)` is what the
connector-generating chart variant uses for its generated points, and what
`calculateApertureAtFocalLength` uses (rounded to one decimal) when no physical
parameters can be found for the basis lens. -/
theorem C1_fallback_rules :
    (∀ (f a targetFL : ℚ) (p c : Option ℚ), p = none ∨ c = none →
        theoreticalEndY f a p c targetFL = a) ∧
    (∀ (f a targetFL : ℚ), f ≠ 0 → connectorY f a targetFL = a * (targetFL / f)) ∧
    (∀ (f a targetFL : ℚ), 0 < f → f < targetFL →
        calculateApertureAtFocalLength targetFL [⟨f, a, none, none⟩] [] =
          some (round1 (a * (targetFL / f)))) := by
  refine ⟨?_, ?_, ?_⟩
  · intro f a t p c h
    rcases h with h | h <;> subst h
    · cases c <;> rfl
    · cases p <;> rfl
  · intro f a t hf
    simp [connectorY, hf]
  · intro f a t hf hlt
    have hne : ¬ (f = t) := ne_of_lt hlt
    simp only [calculateApertureAtFocalLength, List.map, List.foldl, min_self]
    rw [if_neg (not_lt.mpr hlt.le)]
    simp [List.find?, hne, findBestLens, hlt.le]

/-- C1 witness. -/
theorem C1_witness :
    theoreticalEndY 24 2 none none 48 = 2 ∧
    connectorY 24 2 48 = 2 * (48 / 24) ∧
    calculateApertureAtFocalLength 48 [⟨24, 2, none, none⟩] [] =
      some (round1 (2 * (48 / 24))) :=
  ⟨C1_fallback_rules.1 24 2 48 none none (Or.inl rfl),
   C1_fallback_rules.2.1 24 2 48 (by norm_num),
   C1_fallback_rules.2.2 24 2 48 (by norm_num) (by norm_num)⟩

/-- C2: when both physical parameters are present and the focal length is
nonzero, the projected value at `targetFL` is
`physicalValue × conversionFactor / focalLength × targetFL`; in particular a
lens with physicalValue 1.6, conversionFactor 2.0, focalLength 24 projected to
48mm yields 6.4, both in the chart point generation and in the table
calculation (which rounds to one decimal, leaving 6.4 unchanged). -/
theorem C2_physical_rule :
    (∀ (f a pv cv targetFL : ℚ), f ≠ 0 →
        theoreticalEndY f a (some pv) (some cv) targetFL = pv * cv / f * targetFL) ∧
    (∀ (a : ℚ), theoreticalEndY 24 a (some (8 / 5)) (some 2) 48 = 32 / 5) ∧
    calculateApertureAtFocalLength 48 [⟨24, 16 / 5, none, none⟩]
      [⟨[⟨24, 16 / 5, some (8 / 5), some 2⟩]⟩] = some (32 / 5) := by
  refine ⟨?_, ?_, ?_⟩
  · intro f a pv cv t hf
    simp [theoreticalEndY, hf]
  · intro a
    norm_num [theoreticalEndY]
  · norm_num [calculateApertureAtFocalLength, findBestLens, List.find?, round1]

/-- C2 witness. -/
theorem C2_witness :
    theoreticalEndY 24 3 (some (8 / 5)) (some 2) 48 = 8 / 5 * 2 / 24 * 48 :=
  C2_physical_rule.1 24 3 (8 / 5) 2 48 (by norm_num)

/-- C4 counterexample: a lens with opticalValue 5, physicalValue 1.6,
conversionFactor 2 and focalLength 24 (the code nowhere requires
`opticalValue = physicalValue × conversionFactor`): the physical-parameter rule
evaluated at the lens's own focal length yields 3.2, which differs from the
lens's opticalValue 5 by far more than 1e-9, so the two projection formulas do
not agree at the lens's own focal length for every lens. -/
theorem C4_counterexample :
    theoreticalEndY 24 5 (some (8 / 5)) (some 2) 24 = 16 / 5 ∧
    ¬ |16 / 5 - (5 : ℚ)| ≤ 1 / 1000000000 := by
  constructor
  · norm_num [theoreticalEndY]
  · rw [show (16 / 5 - (5 : ℚ)) = -(9 / 5) by norm_num, abs_neg,
      abs_of_pos (by norm_num : (0 : ℚ) < 9 / 5)]
    norm_num

/-- C4 (amended): the fallback ratio rule evaluated at the lens's own focal
length yields exactly the lens's opticalValue; the physical-parameter rule
evaluated there yields `physicalValue × conversionFactor`, so the two rules
agree exactly when the data satisfies
`opticalValue = physicalValue × conversionFactor`; and
`calculateApertureAtFocalLength` at a native focal length returns the lens's
own aperture exactly (the exact-match check short-circuits before either
projection formula runs). -/
theorem C4_native_value :
    (∀ (f a : ℚ), f ≠ 0 → connectorY f a f = a) ∧
    (∀ (f a pv cv : ℚ), f ≠ 0 → theoreticalEndY f a (some pv) (some cv) f = pv * cv) ∧
    (∀ (L : LensV) (lenses : List LensV) (datasets : List Dataset),
        L ∈ lenses →
        lenses.Pairwise (fun p q => p.focalLength ≠ q.focalLength) →
        calculateApertureAtFocalLength L.focalLength lenses datasets = some L.aperture) := by
  refine ⟨?_, ?_, ?_⟩
  · intro f a hf
    simp [connectorY, hf, div_self]
  · intro f a pv cv hf
    simp [theoreticalEndY, hf, div_mul_cancel₀]
  · intro L lenses datasets hmem hpw
    obtain ⟨l0, lrest, rfl⟩ : ∃ l0 lrest, lenses = l0 :: lrest := by
      cases lenses with
      | nil => cases hmem
      | cons a b => exact ⟨a, b, rfl⟩
    have hmin : ((l0 :: lrest).map (fun l => l.focalLength)).foldl min l0.focalLength ≤
        L.focalLength :=
      foldl_min_le_of_mem _ _ (List.mem_map_of_mem _ hmem)
    simp only [calculateApertureAtFocalLength]
    rw [if_neg (not_lt.mpr hmin), find?_focal_self _ hpw hmem]

/-- C4 witness. -/
theorem C4_witness :
    connectorY 24 2 24 = 2 ∧
    theoreticalEndY 24 2 (some (8 / 5)) (some 2) 24 = 8 / 5 * 2 ∧
    calculateApertureAtFocalLength lensA.focalLength [lensA, lensB] [] = some lensA.aperture :=
  ⟨C4_native_value.1 24 2 (by norm_num),
   C4_native_value.2.1 24 2 (8 / 5) 2 (by norm_num),
   C4_native_value.2.2 lensA [lensA, lensB] [] (by decide) (by decide)⟩

/-- C8: a target focal length strictly below every native focal length yields
`none` from both per-focal-length calculations, and the connector-variant
projector emits no point at such a focal length (every emitted point sits at or
above some valid lens's focal length). -/
theorem C8_out_of_domain :
    (∀ (targetFocal : ℚ) (lenses : List LensV) (datasets : List Dataset),
        lenses ≠ [] → (∀ l ∈ lenses, targetFocal < l.focalLength) →
        calculateApertureAtFocalLength targetFocal lenses datasets = none) ∧
    (∀ (targetFocal : ℚ) (lenses : List LensV) (details : List (ℚ × SensorDetail)),
        lenses ≠ [] → (∀ l ∈ lenses, targetFocal < l.focalLength) →
        calculateSensorSizeAtFocalLength targetFocal lenses details = none) ∧
    (∀ (ticks : List ℚ) (lvs : List LensV) (targetFocal : ℚ) (p : Pt),
        (∀ l ∈ lvs, targetFocal < l.focalLength) →
        p ∈ connectorPagePoints ticks (lvs.map rawOf) → targetFocal ≠ p.x) := by
  refine ⟨?_, ?_, ?_⟩
  · intro t lenses datasets hne h
    obtain ⟨l0, lrest, rfl⟩ : ∃ l0 lrest, lenses = l0 :: lrest := by
      cases lenses with
      | nil => exact absurd rfl hne
      | cons a b => exact ⟨a, b, rfl⟩
    simp only [calculateApertureAtFocalLength]
    rw [if_pos]
    exact lt_foldl_min _ _ (h l0 (List.mem_cons_self _ _)) (fun x hx => by
      obtain ⟨l, hl, rfl⟩ := List.mem_map.mp hx
      exact h l hl)
  · intro t lenses details hne h
    obtain ⟨l0, lrest, rfl⟩ : ∃ l0 lrest, lenses = l0 :: lrest := by
      cases lenses with
      | nil => exact absurd rfl hne
      | cons a b => exact ⟨a, b, rfl⟩
    simp only [calculateSensorSizeAtFocalLength]
    rw [find?_focal_none _ (fun l hl => ne_of_gt (h l hl)), if_pos]
    exact lt_foldl_min _ _ (h l0 (List.mem_cons_self _ _)) (fun x hx => by
      obtain ⟨l, hl, rfl⟩ := List.mem_map.mp hx
      exact h l hl)
  · intro ticks lvs t p h hp
    unfold connectorPagePoints at hp
    by_cases ht : ticks = []
    · rw [if_pos ht] at hp; cases hp
    · rw [if_neg ht] at hp
      unfold stableSortByX at hp
      rw [List.mem_insertionSort] at hp
      obtain ⟨r, hr, cur, hv, hle⟩ := mem_connPointsAux_bound _ hp
      unfold sortLensesByFocal at hr
      rw [List.mem_insertionSort] at hr
      obtain ⟨l, hl, rfl⟩ := List.mem_map.mp hr
      rw [rawOf_view] at hv
      have hcur : cur = l := (Option.some_inj.mp hv).symm
      rw [hcur] at hle
      exact ne_of_lt (lt_of_lt_of_le (h l hl) hle)

/-- C8 witness. -/
theorem C8_witness :
    calculateApertureAtFocalLength 20 [lensA] [] = none ∧
    calculateSensorSizeAtFocalLength 20 [lensA] [] = none ∧
    (20 : ℚ) ≠ (connActualPt lensA).x :=
  ⟨C8_out_of_domain.1 20 [lensA] [] (by decide) (by decide),
   C8_out_of_domain.2.1 20 [lensA] [] (by decide) (by decide),
   C8_out_of_domain.2.2 refTicks [lensA] 20 (connActualPt lensA) (by decide) (by decide)⟩

theorem findIndexAux_eq_some (p : ℚ → Bool) :
    ∀ (l : List ℚ) (k : ℕ), k < l.length →
      (∀ j, j < k → p (l.getD j 0) = false) → p (l.getD k 0) = true →
      ∀ i, findIndexAux p l i = some (k + i) := by
  intro l
  induction l with
  | nil => intro k hk; simp at hk
  | cons t ts ih =>
      intro k hk hf ht i
      cases k with
      | zero =>
          simp only [List.getD_cons_zero] at ht
          simp [findIndexAux, ht]
      | succ k =>
          have h0 : p t = false := by
            have := hf 0 (Nat.succ_pos k)
            simpa using this
          have hrec := ih k (by simpa using Nat.lt_of_succ_lt_succ hk)
            (fun j hj => by
              have := hf (j + 1) (Nat.succ_lt_succ hj)
              simpa using this)
            (by simpa using ht) (i + 1)
          simp only [findIndexAux, h0, Bool.false_eq_true, if_false, hrec]
          congr 1
          omega

theorem findIndexAux_eq_none (p : ℚ → Bool) :
    ∀ (l : List ℚ), (∀ t ∈ l, p t = false) → ∀ i, findIndexAux p l i = none := by
  intro l
  induction l with
  | nil => intro _ _; rfl
  | cons t ts ih =>
      intro h i
      simp only [findIndexAux, h t (List.mem_cons_self t ts), Bool.false_eq_true, if_false]
      exact ih (fun x hx => h x (List.mem_cons_of_mem t hx)) (i + 1)

theorem sorted_getD_lt {l : List ℚ} (hs : l.Sorted (· < ·)) {i j : ℕ}
    (hij : i < j) (hj : j < l.length) : l.getD i 0 < l.getD j 0 := by
  have hi : i < l.length := lt_trans hij hj
  rw [List.getD_eq_getElem l 0 hi, List.getD_eq_getElem l 0 hj]
  exact List.pairwise_iff_get.mp hs ⟨i, hi⟩ ⟨j, hj⟩ hij

theorem sorted_le_getD_last {l : List ℚ} (hs : l.Sorted (· < ·)) {t : ℚ} (ht : t ∈ l) :
    t ≤ l.getD (l.length - 1) 0 := by
  obtain ⟨⟨n, hn⟩, rfl⟩ := List.mem_iff_get.mp ht
  rcases Nat.lt_or_ge n (l.length - 1) with h | h
  · have := sorted_getD_lt hs h (by omega)
    rw [List.getD_eq_getElem l 0 hn] at this
    simpa using this.le
  · have hn' : n = l.length - 1 := by omega
    subst hn'
    rw [List.getD_eq_getElem l 0 hn]
    simp

/-- C6: the equidistant categorical x-axis mapping: (1) a major tick maps
exactly to its index; (2) a value strictly inside segment `i` maps to
`i + (v - ticks[i]) / (ticks[i+1] - ticks[i])`; (3) a value below the first
tick is extrapolated with the first segment's linear formula (not clamped);
(4) a value above the last tick is extrapolated with the last segment's linear
formula (not clamped); (5) the in-segment computation returns the lower index
when the bracketing segment is degenerate, avoiding a division by zero. -/
theorem C6_transform_spec :
    (∀ (ticks : List ℚ) (k : ℕ), ticks.Sorted (· < ·) → k < ticks.length →
        transformFocalLengthToXCoordinate (ticks.getD k 0) ticks = k) ∧
    (∀ (ticks : List ℚ) (i : ℕ) (v : ℚ), ticks.Sorted (· < ·) → i + 1 < ticks.length →
        ticks.getD i 0 < v → v < ticks.getD (i + 1) 0 →
        transformFocalLengthToXCoordinate v ticks =
          i + (v - ticks.getD i 0) / (ticks.getD (i + 1) 0 - ticks.getD i 0)) ∧
    (∀ (ticks : List ℚ) (v : ℚ), ticks.Sorted (· < ·) → 2 ≤ ticks.length →
        v < ticks.getD 0 0 →
        transformFocalLengthToXCoordinate v ticks =
          0 + (v - ticks.getD 0 0) / (ticks.getD 1 0 - ticks.getD 0 0)) ∧
    (∀ (ticks : List ℚ) (v : ℚ), ticks.Sorted (· < ·) → 2 ≤ ticks.length →
        ticks.getD (ticks.length - 1) 0 < v →
        transformFocalLengthToXCoordinate v ticks =
          ((ticks.length - 2 : ℕ) : ℚ) +
            (v - ticks.getD (ticks.length - 2) 0) /
              (ticks.getD (ticks.length - 1) 0 - ticks.getD (ticks.length - 2) 0)) ∧
    (∀ (a v : ℚ) (j : ℕ), segPos j a a v = j) := by
  refine ⟨?_, ?_, ?_, ?_, ?_⟩
  · intro ticks k hs hk
    have hne : ticks ≠ [] := List.ne_nil_of_length_pos (by omega)
    unfold transformFocalLengthToXCoordinate
    rw [if_neg hne]
    cases k with
    | zero =>
        rw [findIndexAux_eq_some (fun tick => decide (ticks.getD 0 0 ≤ tick)) ticks 0 hk
          (by intro j hj; omega) (by simp) 0]
        show (if ticks.getD 0 0 = ticks.getD 0 0 then (0 : ℚ) else _) = _
        rw [if_pos rfl]
        simp
    | succ j =>
        rw [findIndexAux_eq_some (fun tick => decide (ticks.getD (j + 1) 0 ≤ tick)) ticks
          (j + 1) hk
          (fun j' hj' => by
            have hlt := sorted_getD_lt hs hj' hk
            exact decide_eq_false (not_le.mpr hlt))
          (by simp) 0]
        show segPos j (ticks.getD j 0) (ticks.getD (j + 1) 0) (ticks.getD (j + 1) 0) =
          ((j + 1 : ℕ) : ℚ)
        have hne2 : ticks.getD (j + 1) 0 - ticks.getD j 0 ≠ 0 :=
          sub_ne_zero.mpr (ne_of_gt (sorted_getD_lt hs (Nat.lt_succ_self j) hk))
        rw [segPos, if_neg hne2, div_self hne2]
        push_cast
        ring
  · intro ticks i v hs hi hv1 hv2
    have hne : ticks ≠ [] := List.ne_nil_of_length_pos (by omega)
    unfold transformFocalLengthToXCoordinate
    rw [if_neg hne]
    rw [findIndexAux_eq_some (fun tick => decide (v ≤ tick)) ticks (i + 1) hi
      (fun j' hj' => by
        have hle : ticks.getD j' 0 ≤ ticks.getD i 0 := by
          rcases Nat.lt_or_ge j' i with h | h
          · exact (sorted_getD_lt hs h (by omega)).le
          · have hji : j' = i := by omega
            subst hji; exact le_rfl
        exact decide_eq_false (not_le.mpr (lt_of_le_of_lt hle hv1)))
      (decide_eq_true hv2.le) 0]
    show segPos i (ticks.getD i 0) (ticks.getD (i + 1) 0) v = _
    have hne2 : ticks.getD (i + 1) 0 - ticks.getD i 0 ≠ 0 :=
      sub_ne_zero.mpr (ne_of_gt (lt_trans hv1 hv2))
    rw [segPos, if_neg hne2]
  · intro ticks v hs hlen hv
    have hne : ticks ≠ [] := List.ne_nil_of_length_pos (by omega)
    unfold transformFocalLengthToXCoordinate
    rw [if_neg hne]
    rw [findIndexAux_eq_some (fun tick => decide (v ≤ tick)) ticks 0 (by omega)
      (by intro j hj; omega) (decide_eq_true hv.le) 0]
    show (if v = ticks.getD 0 0 then (0 : ℚ)
      else
        if 0 < (if 1 < ticks.length then ticks.getD 1 0 - ticks.getD 0 0 else ticks.getD 0 0)
        then (v - ticks.getD 0 0) /
          (if 1 < ticks.length then ticks.getD 1 0 - ticks.getD 0 0 else ticks.getD 0 0)
        else 0) = _
    have h01 : ticks.getD 0 0 < ticks.getD 1 0 := sorted_getD_lt hs Nat.zero_lt_one (by omega)
    rw [if_neg (ne_of_lt hv), if_pos (by omega : 1 < ticks.length),
      if_pos (sub_pos.mpr h01), zero_add]
  · intro ticks v hs hlen hv
    have hne : ticks ≠ [] := List.ne_nil_of_length_pos (by omega)
    unfold transformFocalLengthToXCoordinate
    rw [if_neg hne]
    rw [findIndexAux_eq_none (fun tick => decide (v ≤ tick)) ticks (fun t ht => by
      have hle := sorted_le_getD_last hs ht
      exact decide_eq_false (not_le.mpr (lt_of_le_of_lt hle hv))) 0]
    show (if 0 < ticks.getD (ticks.length - 1) 0 -
          (if 1 < ticks.length then ticks.getD (ticks.length - 2) 0 else 0)
      then ((ticks.length - 1 : ℕ) : ℚ) +
        (v - ticks.getD (ticks.length - 1) 0) /
          (ticks.getD (ticks.length - 1) 0 -
            (if 1 < ticks.length then ticks.getD (ticks.length - 2) 0 else 0))
      else ((ticks.length - 1 : ℕ) : ℚ)) = _
    rw [if_pos (by omega : 1 < ticks.length)]
    have hΔ : 0 < ticks.getD (ticks.length - 1) 0 - ticks.getD (ticks.length - 2) 0 :=
      sub_pos.mpr (sorted_getD_lt hs (by omega) (by omega))
    rw [if_pos hΔ]
    have hcast1 : ((ticks.length - 1 : ℕ) : ℚ) = (ticks.length : ℚ) - 1 := by
      rw [Nat.cast_sub (by omega)]; norm_num
    have hcast2 : ((ticks.length - 2 : ℕ) : ℚ) = (ticks.length : ℚ) - 2 := by
      rw [Nat.cast_sub (by omega)]; norm_num
    rw [hcast1, hcast2]
    set L := ticks.getD (ticks.length - 1) 0 with hL
    set S := ticks.getD (ticks.length - 2) 0 with hS
    have hne3 : L - S ≠ 0 := ne_of_gt hΔ
    field_simp
    ring
  · intro a v j
    simp [segPos]

/-- C6 witness. -/
theorem C6_witness :
    transformFocalLengthToXCoordinate 50 [24, 50, 75] = 1 ∧
    transformFocalLengthToXCoordinate 30 [24, 50, 75] = 0 + (30 - 24) / (50 - 24) ∧
    transformFocalLengthToXCoordinate 12 [24, 50, 75] = 0 + (12 - 24) / (50 - 24) ∧
    transformFocalLengthToXCoordinate 100 [24, 50, 75] =
      ((1 : ℕ) : ℚ) + (100 - 50) / (75 - 50) ∧
    segPos 3 24 24 7 = 3 := by
  refine ⟨?_, ?_, ?_, ?_, C6_transform_spec.2.2.2.2 24 7 3⟩
  · have h := C6_transform_spec.1 [24, 50, 75] 1 (by decide) (by decide)
    simpa using h
  · have h := C6_transform_spec.2.1 [24, 50, 75] 0 30 (by decide) (by decide)
      (by norm_num) (by norm_num)
    simpa using h
  · have h := C6_transform_spec.2.2.1 [24, 50, 75] 12 (by decide) (by decide) (by norm_num)
    simpa using h
  · have h := C6_transform_spec.2.2.2.1 [24, 50, 75] 100 (by decide) (by decide) (by norm_num)
    simpa using h

theorem desc_getD_lt {l : List TickDef} {d : TickDef}
    (hs : l.Pairwise (fun a b => b.value < a.value)) {i j : ℕ}
    (hij : i < j) (hj : j < l.length) : (l.getD j d).value < (l.getD i d).value := by
  have hi : i < l.length := lt_trans hij hj
  rw [List.getD_eq_getElem l d hi, List.getD_eq_getElem l d hj]
  exact List.pairwise_iff_get.mp hs ⟨i, hi⟩ ⟨j, hj⟩ hij

theorem mapSensorLoop_spec (v : ℚ) (d : TickDef) :
    ∀ (defs : List TickDef) (i : ℕ), defs.Pairwise (fun a b => b.value < a.value) →
      i + 1 < defs.length →
      (defs.getD (i + 1) d).value < v → v ≤ (defs.getD i d).value →
      ∀ k : ℕ, mapSensorLoop v k defs =
        some (((k + i : ℕ) : ℚ) + 1 - (v - (defs.getD (i + 1) d).value) /
          ((defs.getD i d).value - (defs.getD (i + 1) d).value)) := by
  intro defs
  induction defs with
  | nil => intro i _ hi; simp at hi
  | cons u rest ih =>
      intro i hpw hi hlow hup k
      cases rest with
      | nil => simp at hi
      | cons l rest2 =>
          cases i with
          | zero =>
              have hup0 : v ≤ u.value := hup
              have hlow0 : l.value < v := hlow
              have hlt : l.value < u.value :=
                (List.pairwise_cons.mp hpw).1 l (List.mem_cons_self l rest2)
              rw [mapSensorLoop, if_pos ⟨hup0, hlow0⟩, if_neg (by exact ne_of_gt hlt)]
              show some ((k : ℚ) + 1 - (v - l.value) / (u.value - l.value)) = _
              norm_num
          | succ i =>
              have hlow2 : ((l :: rest2).getD (i + 1) d).value < v := hlow
              have hup2 : v ≤ ((l :: rest2).getD i d).value := hup
              have hlen2 : i + 1 < (l :: rest2).length := by
                simp only [List.length_cons] at hi ⊢
                omega
              have hle0 : ((l :: rest2).getD i d).value ≤ l.value := by
                cases i with
                | zero => simp
                | succ i2 =>
                    have h0 : (0 : ℕ) < i2 + 1 := Nat.succ_pos i2
                    have hlt := @desc_getD_lt (l :: rest2) d
                      (List.pairwise_cons.mp hpw).2 0 (i2 + 1) h0 (by
                        simp only [List.length_cons] at hlen2 ⊢
                        omega)
                    simpa using hlt.le
              have hcond : ¬ (v ≤ u.value ∧ l.value < v) := by
                intro hc
                exact absurd (lt_of_le_of_lt (le_trans hup2 hle0) hc.2) (lt_irrefl v)
              rw [mapSensorLoop, if_neg hcond,
                ih i (List.pairwise_cons.mp hpw).2 hlen2 hlow2 hup2 (k + 1)]
              have e1 : ((u :: l :: rest2).getD (i + 1 + 1) d) = ((l :: rest2).getD (i + 1) d) :=
                rfl
              have e2 : ((u :: l :: rest2).getD (i + 1) d) = ((l :: rest2).getD i d) := rfl
              rw [e1, e2]
              congr 1
              push_cast
              ring

/-- C7: the reversed categorical sensor-axis mapping: a value at or above the
largest (first) tick maps to position 0; a value at or below the smallest
(last) tick maps to the last index; a value bracketed by the pair at indices
`i`, `i+1` with `lower.value < v ≤ upper.value` maps to
`(i+1) - (v - lower.value) / (upper.value - lower.value)`; in particular the
first tick's value maps to 0 and the last tick's value maps to the last index. -/
theorem C7_sensor_axis_mapping :
    (∀ (defs : List TickDef) (v : ℚ), defs ≠ [] →
        (defs.getD 0 ⟨0, ""⟩).value ≤ v →
        mapSensorValueToEquidistantYPosition defs (some v) = some 0) ∧
    (∀ (defs : List TickDef) (v : ℚ), defs ≠ [] →
        defs.Pairwise (fun a b => b.value < a.value) →
        v ≤ (defs.getD (defs.length - 1) ⟨0, ""⟩).value →
        mapSensorValueToEquidistantYPosition defs (some v) =
          some ((defs.length - 1 : ℕ) : ℚ)) ∧
    (∀ (defs : List TickDef) (v : ℚ) (i : ℕ),
        defs.Pairwise (fun a b => b.value < a.value) →
        i + 1 < defs.length →
        (defs.getD (i + 1) ⟨0, ""⟩).value < v → v ≤ (defs.getD i ⟨0, ""⟩).value →
        mapSensorValueToEquidistantYPosition defs (some v) =
          some ((i : ℚ) + 1 - (v - (defs.getD (i + 1) ⟨0, ""⟩).value) /
            ((defs.getD i ⟨0, ""⟩).value - (defs.getD (i + 1) ⟨0, ""⟩).value))) ∧
    (∀ (defs : List TickDef), defs ≠ [] →
        defs.Pairwise (fun a b => b.value < a.value) →
        mapSensorValueToEquidistantYPosition defs (some (defs.getD 0 ⟨0, ""⟩).value) =
          some 0 ∧
        mapSensorValueToEquidistantYPosition defs
          (some (defs.getD (defs.length - 1) ⟨0, ""⟩).value) =
          some ((defs.length - 1 : ℕ) : ℚ)) := by
  have part1 : ∀ (defs : List TickDef) (v : ℚ), defs ≠ [] →
      (defs.getD 0 ⟨0, ""⟩).value ≤ v →
      mapSensorValueToEquidistantYPosition defs (some v) = some 0 := by
    intro defs v hne h
    obtain ⟨d0, drest, rfl⟩ : ∃ d0 drest, defs = d0 :: drest := by
      cases defs with
      | nil => exact absurd rfl hne
      | cons a b => exact ⟨a, b, rfl⟩
    simp only [List.getD_cons_zero] at h
    show mapSensorBody d0 drest v = some 0
    unfold mapSensorBody
    rw [if_pos h]
  have part2 : ∀ (defs : List TickDef) (v : ℚ), defs ≠ [] →
      defs.Pairwise (fun a b => b.value < a.value) →
      v ≤ (defs.getD (defs.length - 1) ⟨0, ""⟩).value →
      mapSensorValueToEquidistantYPosition defs (some v) =
        some ((defs.length - 1 : ℕ) : ℚ) := by
    intro defs v hne hpw h
    obtain ⟨d0, drest, rfl⟩ : ∃ d0 drest, defs = d0 :: drest := by
      cases defs with
      | nil => exact absurd rfl hne
      | cons a b => exact ⟨a, b, rfl⟩
    cases drest with
    | nil =>
        have h2 : v ≤ d0.value := by simpa using h
        show mapSensorBody d0 [] v = _
        unfold mapSensorBody
        by_cases hc : d0.value ≤ v
        · rw [if_pos hc]
          norm_num
        · rw [if_neg hc, if_pos (by simpa using h2)]
    | cons d1 drest2 =>
        have hlast_lt : ((d0 :: d1 :: drest2).getD ((d0 :: d1 :: drest2).length - 1)
            ⟨0, ""⟩).value < d0.value := by
          have h0 : (0 : ℕ) < (d0 :: d1 :: drest2).length - 1 := by simp
          have hlt := @desc_getD_lt (d0 :: d1 :: drest2) ⟨0, ""⟩ hpw 0
            ((d0 :: d1 :: drest2).length - 1) h0 (by simp)
          simpa using hlt
        have hvlt : v < d0.value := lt_of_le_of_lt h hlast_lt
        show mapSensorBody d0 (d1 :: drest2) v = _
        unfold mapSensorBody
        rw [if_neg (not_le.mpr hvlt), if_pos h]
  have part3 : ∀ (defs : List TickDef) (v : ℚ) (i : ℕ),
      defs.Pairwise (fun a b => b.value < a.value) →
      i + 1 < defs.length →
      (defs.getD (i + 1) ⟨0, ""⟩).value < v → v ≤ (defs.getD i ⟨0, ""⟩).value →
      mapSensorValueToEquidistantYPosition defs (some v) =
        some ((i : ℚ) + 1 - (v - (defs.getD (i + 1) ⟨0, ""⟩).value) /
          ((defs.getD i ⟨0, ""⟩).value - (defs.getD (i + 1) ⟨0, ""⟩).value)) := by
    intro defs v i hpw hi hlow hup
    obtain ⟨d0, drest, rfl⟩ : ∃ d0 drest, defs = d0 :: drest := by
      cases defs with
      | nil => simp at hi
      | cons a b => exact ⟨a, b, rfl⟩
    have hne0 : ((d0 :: drest).getD i ⟨0, ""⟩).value -
        ((d0 :: drest).getD (i + 1) ⟨0, ""⟩).value ≠ 0 :=
      sub_ne_zero.mpr (ne_of_gt (desc_getD_lt hpw (Nat.lt_succ_self i) hi))
    have hlast_le : ((d0 :: drest).getD ((d0 :: drest).length - 1) ⟨0, ""⟩).value ≤
        ((d0 :: drest).getD (i + 1) ⟨0, ""⟩).value := by
      rcases Nat.lt_or_ge (i + 1) ((d0 :: drest).length - 1) with hc | hc
      · exact (desc_getD_lt hpw hc (by omega)).le
      · have : i + 1 = (d0 :: drest).length - 1 := by omega
        rw [this]
    have hnotlast : ¬ (v ≤ ((d0 :: drest).getD ((d0 :: drest).length - 1) ⟨0, ""⟩).value) :=
      not_le.mpr (lt_of_le_of_lt hlast_le hlow)
    by_cases h0 : d0.value ≤ v
    · have hi0 : i = 0 := by
        by_contra hne
        have h1 : (0 : ℕ) < i := Nat.pos_of_ne_zero hne
        have := @desc_getD_lt (d0 :: drest) ⟨0, ""⟩ hpw 0 i h1 (by omega)
        simp only [List.getD_cons_zero] at this
        exact absurd (lt_of_le_of_lt hup this) (not_lt.mpr h0)
      subst hi0
      have hveq : v = d0.value := le_antisymm (by simpa using hup) h0
      show mapSensorBody d0 drest v = _
      unfold mapSensorBody
      rw [if_pos h0]
      have hd0 : ((d0 :: drest).getD 0 ⟨0, ""⟩) = d0 := by simp
      rw [hd0] at hne0
      congr 1
      rw [hd0, hveq, div_self hne0]
      norm_num
    · show mapSensorBody d0 drest v = _
      unfold mapSensorBody
      rw [if_neg h0, if_neg hnotlast]
      rw [mapSensorLoop_spec v ⟨0, ""⟩ (d0 :: drest) i hpw hi hlow hup 0]
      norm_num
  refine ⟨part1, part2, part3, ?_⟩
  intro defs hne hpw
  exact ⟨part1 defs _ hne le_rfl, part2 defs _ hne hpw le_rfl⟩

/-- C7 witness. -/
theorem C7_witness :
    mapSensorValueToEquidistantYPosition [⟨1, "1"⟩, ⟨1/2, "1/2"⟩, ⟨1/4, "1/4"⟩] (some 2) =
      some 0 ∧
    mapSensorValueToEquidistantYPosition [⟨1, "1"⟩, ⟨1/2, "1/2"⟩, ⟨1/4, "1/4"⟩] (some (1/8)) =
      some ((2 : ℕ) : ℚ) ∧
    mapSensorValueToEquidistantYPosition [⟨1, "1"⟩, ⟨1/2, "1/2"⟩, ⟨1/4, "1/4"⟩] (some (3/4)) =
      some ((0 : ℚ) + 1 - (3/4 - 1/2) / (1 - 1/2)) := by
  refine ⟨?_, ?_, ?_⟩
  · exact C7_sensor_axis_mapping.1 [⟨1, "1"⟩, ⟨1/2, "1/2"⟩, ⟨1/4, "1/4"⟩] 2
      (by simp) (by norm_num)
  · exact C7_sensor_axis_mapping.2.1 [⟨1, "1"⟩, ⟨1/2, "1/2"⟩, ⟨1/4, "1/4"⟩] (1/8)
      (by simp) (by norm_num [List.pairwise_cons]) (by norm_num)
  · have h := C7_sensor_axis_mapping.2.2.1 [⟨1, "1"⟩, ⟨1/2, "1/2"⟩, ⟨1/4, "1/4"⟩] (3/4) 0
      (by norm_num [List.pairwise_cons]) (by norm_num) (by norm_num) (by norm_num)
    simpa using h

theorem view_eq_none_of_invalid {r : RawLens} (h : r.valid = false) : r.view = none := by
  unfold RawLens.valid at h
  unfold RawLens.view
  cases hf : r.focalLength with
  | none => rfl
  | some f =>
      cases ha : r.aperture with
      | none => rfl
      | some a => rw [hf, ha] at h; simp at h

theorem subRun_cons {a l : List Pt} (x : Pt) (h : SubRun a l) : SubRun a (x :: l) := by
  obtain ⟨s, t, rfl⟩ := h
  exact ⟨x :: s, t, rfl⟩

theorem subRun_append_left {a l : List Pt} (s2 : List Pt) (h : SubRun a l) :
    SubRun a (s2 ++ l) := by
  obtain ⟨s, t, rfl⟩ := h
  exact ⟨s2 ++ s, t, by simp⟩

theorem subRun_of_append {a b l : List Pt} (h : SubRun (a ++ b) l) : SubRun b l := by
  obtain ⟨s, t, rfl⟩ := h
  exact ⟨s ++ a, t, by simp⟩

theorem pageAux_cons_cons (ticks : List ℚ) (a b : LensV) (rest : List RawLens) :
    aperturePageAux ticks (rawOf a :: rawOf b :: rest) =
      [actualPt ticks a, theoreticalEndPt ticks a b, verticalLinePt ticks b] ++
        aperturePageAux ticks (rawOf b :: rest) := rfl

theorem pageAux_head (ticks : List ℚ) (b : LensV) (rest : List RawLens) :
    ∃ tail, aperturePageAux ticks (rawOf b :: rest) = actualPt ticks b :: tail := by
  cases rest with
  | nil => exact ⟨[extensionTo200Pt ticks b], rfl⟩
  | cons rn rest2 =>
      cases hv : rn.view with
      | some next =>
          refine ⟨[theoreticalEndPt ticks b next, verticalLinePt ticks next] ++
            aperturePageAux ticks (rn :: rest2), ?_⟩
          show (match (rawOf b).view with
            | some cur =>
                match rn.view with
                | some next =>
                    [actualPt ticks cur, theoreticalEndPt ticks cur next,
                     verticalLinePt ticks next]
                | none => [actualPt ticks cur]
            | none => []) ++ aperturePageAux ticks (rn :: rest2) = _
          rw [rawOf_view, hv]
          rfl
      | none =>
          refine ⟨aperturePageAux ticks (rn :: rest2), ?_⟩
          show (match (rawOf b).view with
            | some cur =>
                match rn.view with
                | some next =>
                    [actualPt ticks cur, theoreticalEndPt ticks cur next,
                     verticalLinePt ticks next]
                | none => [actualPt ticks cur]
            | none => []) ++ aperturePageAux ticks (rn :: rest2) = _
          rw [rawOf_view, hv]
          rfl

theorem pageAux_cons_valid_append (ticks : List ℚ) (p : LensV) (L : List RawLens)
    (hL : L ≠ []) :
    ∃ pref, aperturePageAux ticks (rawOf p :: L) = pref ++ aperturePageAux ticks L := by
  cases L with
  | nil => exact absurd rfl hL
  | cons rn rest =>
      cases hv : rn.view with
      | some next =>
          refine ⟨[actualPt ticks p, theoreticalEndPt ticks p next, verticalLinePt ticks next],
            ?_⟩
          show (match (rawOf p).view with
            | some cur =>
                match rn.view with
                | some next =>
                    [actualPt ticks cur, theoreticalEndPt ticks cur next,
                     verticalLinePt ticks next]
                | none => [actualPt ticks cur]
            | none => []) ++ aperturePageAux ticks (rn :: rest) = _
          rw [rawOf_view, hv]
      | none =>
          refine ⟨[actualPt ticks p], ?_⟩
          show (match (rawOf p).view with
            | some cur =>
                match rn.view with
                | some next =>
                    [actualPt ticks cur, theoreticalEndPt ticks cur next,
                     verticalLinePt ticks next]
                | none => [actualPt ticks cur]
            | none => []) ++ aperturePageAux ticks (rn :: rest) = _
          rw [rawOf_view, hv]

theorem pageAux_run (ticks : List ℚ) (a b : LensV) :
    ∀ (pre post : List LensV),
      SubRun [actualPt ticks a, theoreticalEndPt ticks a b, verticalLinePt ticks b,
              actualPt ticks b]
        (aperturePageAux ticks ((pre ++ a :: b :: post).map rawOf)) := by
  intro pre
  induction pre with
  | nil =>
      intro post
      simp only [List.nil_append, List.map_cons]
      rw [pageAux_cons_cons]
      obtain ⟨tail, htail⟩ := pageAux_head ticks b (post.map rawOf)
      rw [htail]
      exact ⟨[], tail, rfl⟩
  | cons p pre2 ih =>
      intro post
      have hL : (pre2 ++ a :: b :: post).map rawOf ≠ [] := by simp
      obtain ⟨pref, hpref⟩ := pageAux_cons_valid_append ticks p _ hL
      simp only [List.cons_append, List.map_cons]
      rw [hpref]
      exact subRun_append_left pref (ih post)

/-- C9 counterexample: a valid 24mm lens followed by an entry with a missing
focal length. The loader does continue (no abort), but the valid lens loses its
segment points: the output is just its native point, which differs from the
projection of the valid lenses alone (native point plus 200mm extension), so
the remaining valid lens does not get its full projection. -/
theorem C9_counterexample :
    badLens.valid = false ∧
    List.filter RawLens.valid [rawOf lensA, badLens] = [rawOf lensA] ∧
    aperturePagePoints refTicks [rawOf lensA, badLens] = [actualPt refTicks lensA] ∧
    aperturePagePoints refTicks [rawOf lensA] =
      [actualPt refTicks lensA, extensionTo200Pt refTicks lensA] ∧
    aperturePagePoints refTicks [rawOf lensA, badLens] ≠
      aperturePagePoints refTicks (List.filter RawLens.valid [rawOf lensA, badLens]) := by
  refine ⟨rfl, rfl, rfl, rfl, ?_⟩
  intro h
  rw [show List.filter RawLens.valid [rawOf lensA, badLens] = [rawOf lensA] from rfl,
    show aperturePagePoints refTicks [rawOf lensA, badLens] = [actualPt refTicks lensA] from rfl,
    show aperturePagePoints refTicks [rawOf lensA] =
      [actualPt refTicks lensA, extensionTo200Pt refTicks lensA] from rfl] at h
  exact absurd (congrArg List.length h) (by simp)

/-- C9 (amended): an entry with a missing or non-numeric focal length or
aperture contributes no points and never aborts the projection — the loaders
continue with the remaining lenses — but the valid lens immediately before an
invalid entry is emitted with only its native point (its theoretical-end and
vertical-line points are dropped in the aperture chart), so the output is not
in general the full projection of the valid lenses alone. In the
connector-generating variant an invalid lens is likewise skipped and
processing continues. -/
theorem C9_skip_behaviour :
    (∀ (ticks : List ℚ) (r : RawLens) (rest : List RawLens), r.valid = false →
        aperturePagePoints ticks (r :: rest) = aperturePagePoints ticks rest) ∧
    (∀ (ticks : List ℚ) (a : LensV) (r : RawLens) (rest : List RawLens), ticks ≠ [] →
        r.valid = false →
        aperturePagePoints ticks (rawOf a :: r :: rest) =
          actualPt ticks a :: aperturePagePoints ticks rest) ∧
    (∀ (ticks : List ℚ) (r : RawLens) (rest : List RawLens), r.valid = false →
        connPointsAux ticks (r :: rest) = connPointsAux ticks rest) := by
  have hauxskip : ∀ (ticks : List ℚ) (r : RawLens) (rest : List RawLens), r.valid = false →
      aperturePageAux ticks (r :: rest) = aperturePageAux ticks rest := by
    intro ticks r rest h
    have hv := view_eq_none_of_invalid h
    cases rest with
    | nil =>
        show (match r.view with
          | some cur => [actualPt ticks cur, extensionTo200Pt ticks cur]
          | none => []) = _
        rw [hv]
        rfl
    | cons rn rest2 =>
        show (match r.view with
          | some cur =>
              match rn.view with
              | some next =>
                  [actualPt ticks cur, theoreticalEndPt ticks cur next,
                   verticalLinePt ticks next]
              | none => [actualPt ticks cur]
          | none => []) ++ aperturePageAux ticks (rn :: rest2) = _
        rw [hv]
        rfl
  refine ⟨?_, ?_, ?_⟩
  · intro ticks r rest h
    unfold aperturePagePoints
    by_cases ht : ticks = []
    · rw [if_pos ht, if_pos ht]
    · rw [if_neg ht, if_neg ht, hauxskip ticks r rest h]
  · intro ticks a r rest ht h
    have hv := view_eq_none_of_invalid h
    unfold aperturePagePoints
    rw [if_neg ht, if_neg ht]
    have hstep : aperturePageAux ticks (rawOf a :: r :: rest) =
        [actualPt ticks a] ++ aperturePageAux ticks (r :: rest) := by
      show (match (rawOf a).view with
        | some cur =>
            match r.view with
            | some next =>
                [actualPt ticks cur, theoreticalEndPt ticks cur next,
                 verticalLinePt ticks next]
            | none => [actualPt ticks cur]
        | none => []) ++ aperturePageAux ticks (r :: rest) = _
      rw [rawOf_view, hv]
    rw [hstep, hauxskip ticks r rest h]
    rfl
  · intro ticks r rest h
    have hv := view_eq_none_of_invalid h
    cases rest with
    | nil =>
        show emitSegment ticks r (some 200) = _
        unfold emitSegment
        rw [hv]
        rfl
    | cons rn rest2 =>
        show emitSegment ticks r rn.focalLength ++ connPointsAux ticks (rn :: rest2) = _
        unfold emitSegment
        rw [hv]
        rfl

/-- C9 witness. -/
theorem C9_witness :
    aperturePagePoints refTicks [badLens, rawOf lensA] =
      aperturePagePoints refTicks [rawOf lensA] ∧
    aperturePagePoints refTicks [rawOf lensA, badLens] =
      actualPt refTicks lensA :: aperturePagePoints refTicks [] ∧
    connPointsAux refTicks [badLens] = connPointsAux refTicks [] :=
  ⟨C9_skip_behaviour.1 refTicks badLens [rawOf lensA] rfl,
   C9_skip_behaviour.2.1 refTicks lensA badLens [] (by decide) rfl,
   C9_skip_behaviour.2.2 refTicks badLens [] rfl⟩

/-- C10: for every dataset of valid lenses, each consecutive pair (a, b)
produces the contiguous run actual(a), theoretical_end(a→b),
actual_for_vertical_line(b), actual(b) in the aperture chart's output; the
vertical-line point carries the next lens's native aperture at the next lens's
focal length and coincides with the next lens's own actual point in both
coordinates, differing only in its pointType tag — a duplicated point. -/
theorem C10_duplicate_native_point :
    ∀ (ticks : List ℚ) (pre : List LensV) (a b : LensV) (post : List LensV), ticks ≠ [] →
      SubRun [actualPt ticks a, theoreticalEndPt ticks a b, verticalLinePt ticks b,
              actualPt ticks b]
        (aperturePagePoints ticks ((pre ++ a :: b :: post).map rawOf)) ∧
      (verticalLinePt ticks b).x = (actualPt ticks b).x ∧
      (verticalLinePt ticks b).y = (actualPt ticks b).y ∧
      (verticalLinePt ticks b).y = b.aperture ∧
      (verticalLinePt ticks b).pointType ≠ (actualPt ticks b).pointType := by
  intro ticks pre a b post ht
  refine ⟨?_, rfl, rfl, rfl, fun hcon => PointType.noConfusion hcon⟩
  unfold aperturePagePoints
  rw [if_neg ht]
  exact pageAux_run ticks a b pre post

/-- C10 witness. -/
theorem C10_witness :
    SubRun [actualPt refTicks lensA, theoreticalEndPt refTicks lensA lensB,
            verticalLinePt refTicks lensB, actualPt refTicks lensB]
      (aperturePagePoints refTicks (([] ++ lensA :: lensB :: []).map rawOf)) ∧
    (verticalLinePt refTicks lensB).x = (actualPt refTicks lensB).x ∧
    (verticalLinePt refTicks lensB).y = (actualPt refTicks lensB).y ∧
    (verticalLinePt refTicks lensB).y = lensB.aperture ∧
    (verticalLinePt refTicks lensB).pointType ≠ (actualPt refTicks lensB).pointType :=
  C10_duplicate_native_point refTicks [] lensA lensB [] (by decide)

theorem connAux_singleton (ticks : List ℚ) (r : RawLens) :
    connPointsAux ticks [r] = emitSegment ticks r (some 200) := rfl

theorem connAux_cons_cons (ticks : List ℚ) (r rn : RawLens) (rest : List RawLens) :
    connPointsAux ticks (r :: rn :: rest) =
      emitSegment ticks r rn.focalLength ++ connPointsAux ticks (rn :: rest) := rfl

theorem emitSegment_valid (ticks : List ℚ) (l : LensV) (e : ℚ) (he : l.focalLength < e) :
    emitSegment ticks (rawOf l) (some e) =
      connActualPt l ::
        ((ticks.filter fun m => decide (l.focalLength < m) && decide (m < e)).map
            (connectorPt l) ++ [segmentEndPt l e]) := by
  show connActualPt l ::
      ((ticks.filter fun m => decide (l.focalLength < m) && decide (m < e)).map
          (connectorPt l) ++
        (if l.focalLength < e then [segmentEndPt l e] else [])) = _
  rw [if_pos he]

theorem emitSegment_shape (ticks : List ℚ) (l : LensV) (e : ℚ) :
    emitSegment ticks (rawOf l) (some e) =
      connActualPt l ::
        ((ticks.filter fun m => decide (l.focalLength < m) && decide (m < e)).map
            (connectorPt l) ++
          (if l.focalLength < e then [segmentEndPt l e] else [])) := rfl

theorem connAux_head (ticks : List ℚ) (w : LensV) (L : List RawLens) :
    ∃ tail, connPointsAux ticks (rawOf w :: L) = connActualPt w :: tail := by
  cases L with
  | nil => exact ⟨_, rfl⟩
  | cons rn rest => exact ⟨_, rfl⟩

theorem mem_emitSegment_ub {ticks : List ℚ} {l : LensV} {e : ℚ} (he : l.focalLength < e)
    {p : Pt} (hp : p ∈ emitSegment ticks (rawOf l) (some e)) : p.x ≤ e := by
  rw [emitSegment_valid ticks l e he] at hp
  rcases List.mem_cons.mp hp with rfl | hp
  · exact he.le
  rcases List.mem_append.mp hp with hp | hp
  · obtain ⟨m, hm, rfl⟩ := List.mem_map.mp hp
    have hmf := List.of_mem_filter hm
    simp only [Bool.and_eq_true, decide_eq_true_eq] at hmf
    exact hmf.2.le
  · rcases List.mem_singleton.mp hp with rfl
    exact le_rfl

theorem emitSegment_chain {ticks : List ℚ} (ht : ticks.Pairwise (· < ·)) (l : LensV)
    (e : ℚ) : (emitSegment ticks (rawOf l) (some e)).Chain' ptLE := by
  rw [emitSegment_shape]
  have hC : ((ticks.filter fun m => decide (l.focalLength < m) && decide (m < e)).map
      (connectorPt l)).Pairwise ptLE := by
    refine List.pairwise_map.mpr ((ht.filter _).imp ?_)
    intro m1 m2 h12
    exact le_of_lt h12
  have hCE : (((ticks.filter fun m => decide (l.focalLength < m) && decide (m < e)).map
        (connectorPt l)) ++
      (if l.focalLength < e then [segmentEndPt l e] else [])).Chain' ptLE := by
    refine hC.chain'.append ?_ ?_
    · by_cases hfe : l.focalLength < e
      · rw [if_pos hfe]; exact List.chain'_singleton _
      · rw [if_neg hfe]; exact List.chain'_nil
    · intro x hx y hy
      obtain ⟨m, hm, rfl⟩ := List.mem_map.mp (List.mem_of_mem_getLast? hx)
      have hmf := List.of_mem_filter hm
      simp only [Bool.and_eq_true, decide_eq_true_eq] at hmf
      by_cases hfe : l.focalLength < e
      · rw [if_pos hfe] at hy
        rcases List.mem_singleton.mp (List.mem_of_mem_head? hy) with rfl
        exact hmf.2.le
      · rw [if_neg hfe] at hy
        cases List.mem_of_mem_head? hy
  refine List.chain'_cons'.mpr ⟨?_, hCE⟩
  intro y hy
  rcases List.mem_append.mp (List.mem_of_mem_head? hy) with hy2 | hy2
  · obtain ⟨m, hm, rfl⟩ := List.mem_map.mp hy2
    have hmf := List.of_mem_filter hm
    simp only [Bool.and_eq_true, decide_eq_true_eq] at hmf
    exact hmf.1.le
  · by_cases hfe : l.focalLength < e
    · rw [if_pos hfe] at hy2
      rcases List.mem_singleton.mp hy2 with rfl
      exact hfe.le
    · rw [if_neg hfe] at hy2
      cases hy2

theorem connAux_chain {ticks : List ℚ} (ht : ticks.Pairwise (· < ·)) :
    ∀ (lvs : List LensV), lvs.Pairwise (fun a b => a.focalLength < b.focalLength) →
      (connPointsAux ticks (lvs.map rawOf)).Chain' ptLE := by
  intro lvs
  induction lvs with
  | nil => intro _; exact List.chain'_nil
  | cons v rest ih =>
      intro hpw
      cases rest with
      | nil =>
          simp only [List.map_cons, List.map_nil]
          rw [connAux_singleton]
          exact emitSegment_chain ht v 200
      | cons w rest2 =>
          simp only [List.map_cons]
          rw [connAux_cons_cons]
          have hvw : v.focalLength < w.focalLength :=
            (List.pairwise_cons.mp hpw).1 w (by simp)
          refine List.Chain'.append (emitSegment_chain ht v w.focalLength)
            (by
              have hih := ih (List.pairwise_cons.mp hpw).2
              simpa only [List.map_cons] using hih) ?_
          intro x hx y hy
          have hxub : x.x ≤ w.focalLength :=
            mem_emitSegment_ub hvw (List.mem_of_mem_getLast? hx)
          obtain ⟨tail, htail⟩ := connAux_head ticks w (rest2.map rawOf)
          rw [htail] at hy
          simp only [List.head?_cons, Option.mem_def, Option.some.injEq] at hy
          subst hy
          exact hxub

theorem stableSortByX_eq_self {pts : List Pt} (h : pts.Chain' ptLE) :
    stableSortByX pts = pts := by
  have hs : List.Sorted ptLE pts := List.chain'_iff_pairwise.mp h
  exact hs.insertionSort_eq

theorem sortLensesByFocal_eq_self {lvs : List LensV}
    (h : lvs.Pairwise (fun a b => a.focalLength ≤ b.focalLength)) :
    sortLensesByFocal (lvs.map rawOf) = lvs.map rawOf := by
  have hs : List.Sorted (fun a b => lensLeB a b = true) (lvs.map rawOf) := by
    refine List.pairwise_map.mpr (h.imp ?_)
    intro a b hab
    exact decide_eq_true hab
  exact hs.insertionSort_eq

theorem connAux_cons_suffix (ticks : List ℚ) (rp : RawLens) (L : List RawLens)
    (hL : L ≠ []) :
    ∃ pref, connPointsAux ticks (rp :: L) = pref ++ connPointsAux ticks L := by
  cases L with
  | nil => exact absurd rfl hL
  | cons rn rest => exact ⟨emitSegment ticks rp rn.focalLength, rfl⟩

theorem connAux_run (ticks : List ℚ) (a b : LensV) :
    ∀ (pre post : List LensV),
      (pre ++ a :: b :: post).Pairwise (fun p q => p.focalLength < q.focalLength) →
      SubRun [segmentEndPt a b.focalLength, connActualPt b]
        (connPointsAux ticks ((pre ++ a :: b :: post).map rawOf)) := by
  intro pre
  induction pre with
  | nil =>
      intro post hpw
      simp only [List.nil_append, List.map_cons]
      rw [connAux_cons_cons]
      have hab : a.focalLength < b.focalLength :=
        (List.pairwise_cons.mp hpw).1 b (by simp)
      rw [show (rawOf b).focalLength = some b.focalLength from rfl,
        emitSegment_valid ticks a b.focalLength hab]
      obtain ⟨tail, htail⟩ := connAux_head ticks b (post.map rawOf)
      rw [htail]
      refine ⟨connActualPt a ::
        (ticks.filter fun m =>
          decide (a.focalLength < m) && decide (m < b.focalLength)).map (connectorPt a),
        tail, ?_⟩
      simp [List.append_assoc]
  | cons p pre2 ih =>
      intro post hpw
      have hL : ((pre2 ++ a :: b :: post).map rawOf) ≠ [] := by simp
      obtain ⟨pref, hpref⟩ := connAux_cons_suffix ticks (rawOf p) _ hL
      simp only [List.cons_append, List.map_cons]
      rw [hpref]
      exact subRun_append_left pref (ih post (List.pairwise_cons.mp hpw).2)

theorem pageAux_ofl_chain (ticks : List ℚ) :
    ∀ (lvs : List LensV), lvs.Pairwise (fun a b => a.focalLength ≤ b.focalLength) →
      (∀ l ∈ lvs, l.focalLength ≤ 200) →
      ((aperturePageAux ticks (lvs.map rawOf)).map
          (fun p => p.originalFocalLength)).Chain' (· ≤ ·) := by
  intro lvs
  induction lvs with
  | nil => intro _ _; exact List.chain'_nil
  | cons v rest ih =>
      intro hpw h200
      cases rest with
      | nil =>
          show ([v.focalLength, (200 : ℚ)]).Chain' (· ≤ ·)
          exact List.chain'_cons.mpr ⟨h200 v (by simp), List.chain'_singleton _⟩
      | cons w rest2 =>
          simp only [List.map_cons]
          rw [pageAux_cons_cons]
          obtain ⟨tail, htail⟩ := pageAux_head ticks w (rest2.map rawOf)
          rw [htail]
          have hvw : v.focalLength ≤ w.focalLength :=
            (List.pairwise_cons.mp hpw).1 w (by simp)
          have hih2 : (w.focalLength ::
              List.map (fun p => p.originalFocalLength) tail).Chain' (· ≤ ·) := by
            have h := ih (List.pairwise_cons.mp hpw).2
              (fun l hl => h200 l (List.mem_cons_of_mem v hl))
            simp only [List.map_cons] at h
            rw [htail] at h
            exact h
          show (v.focalLength :: w.focalLength :: w.focalLength :: w.focalLength ::
            List.map (fun p => p.originalFocalLength) tail).Chain' (· ≤ ·)
          exact List.chain'_cons.mpr ⟨hvw, List.chain'_cons.mpr ⟨le_rfl,
            List.chain'_cons.mpr ⟨le_rfl, hih2⟩⟩⟩

/-- C3 counterexample: the aperture chart's single-lens output for a 24mm lens
under the standard reference ticks consists only of the native point and the
200mm extension: no InterpolatedConnector point is emitted at 35mm, a
reference focal length strictly between the lens's focal length and 200. -/
theorem C3_counterexample :
    (aperturePagePoints refTicks [rawOf lensA]).map (fun p => p.originalFocalLength) =
      [24, 200] ∧
    (35 : ℚ) ∈ refTicks ∧ lensA.focalLength < 35 ∧ (35 : ℚ) < 200 ∧
    ¬ ((35 : ℚ) ∈ (aperturePagePoints refTicks [rawOf lensA]).map
        (fun p => p.originalFocalLength)) := by
  refine ⟨rfl, by decide, by norm_num [lensA], by norm_num, ?_⟩
  rw [show (aperturePagePoints refTicks [rawOf lensA]).map (fun p => p.originalFocalLength) =
    [24, 200] from rfl]
  decide

/-- C3 (amended): for a single valid lens with positive focal length below
200mm and a nonempty ascending reference list, the connector-generating chart
variant emits exactly the native point, one connector at every reference focal
length strictly between the lens's focal length and 200, and exactly one
segment-end point at 200mm based on that lens, in that order; the aperture
chart's loader instead emits only the native point and the 200mm extension
point, with no connector points. -/
theorem C3_single_lens :
    (∀ (ticks : List ℚ) (l : LensV), ticks.Pairwise (· < ·) → ticks ≠ [] →
        0 < l.focalLength → l.focalLength < 200 →
        connectorPagePoints ticks [rawOf l] =
          connActualPt l ::
            ((ticks.filter fun m => decide (l.focalLength < m) && decide (m < 200)).map
                (connectorPt l) ++ [segmentEndPt l 200])) ∧
    (∀ (ticks : List ℚ) (l : LensV), ticks ≠ [] →
        aperturePagePoints ticks [rawOf l] = [actualPt ticks l, extensionTo200Pt ticks l]) := by
  constructor
  · intro ticks l ht hne h0 h200
    unfold connectorPagePoints
    rw [if_neg hne]
    rw [show sortLensesByFocal [rawOf l] = [rawOf l] from rfl, connAux_singleton]
    rw [stableSortByX_eq_self (emitSegment_chain ht l 200)]
    exact emitSegment_valid ticks l 200 h200
  · intro ticks l hne
    unfold aperturePagePoints
    rw [if_neg hne]
    rfl

/-- C3 witness. -/
theorem C3_witness :
    connectorPagePoints refTicks [rawOf lensA] =
      connActualPt lensA ::
        ((refTicks.filter fun m =>
            decide (lensA.focalLength < m) && decide (m < 200)).map (connectorPt lensA) ++
          [segmentEndPt lensA 200]) ∧
    aperturePagePoints refTicks [rawOf lensA] =
      [actualPt refTicks lensA, extensionTo200Pt refTicks lensA] :=
  ⟨C3_single_lens.1 refTicks lensA (by decide) (by decide) (by decide) (by decide),
   C3_single_lens.2 refTicks lensA (by decide)⟩

/-- C5 counterexample, both halves of the claim. Adjacency: with two
24mm/48mm lenses, the boundary point of the first lens (index 1,
theoretical_end at 48mm) is followed at index 2 by the
actual_for_vertical_line duplicate, and only at index 3 by the second lens's
native point, although both share the 48mm focal length — the boundary point
is not emitted immediately before the native point. Monotonicity: a single
250mm lens (ascending lens set of one) emits the represented focal lengths
[250, 200], a decreasing sequence, because the aperture chart pushes the 200mm
extension unconditionally (src/app/page.tsx lines 223-237). -/
theorem C5_counterexample :
    (aperturePagePoints refTicks [rawOf lensA, rawOf lensB]).get? 1 =
      some (theoreticalEndPt refTicks lensA lensB) ∧
    (aperturePagePoints refTicks [rawOf lensA, rawOf lensB]).get? 2 =
      some (verticalLinePt refTicks lensB) ∧
    (aperturePagePoints refTicks [rawOf lensA, rawOf lensB]).get? 3 =
      some (actualPt refTicks lensB) ∧
    (theoreticalEndPt refTicks lensA lensB).originalFocalLength =
      (actualPt refTicks lensB).originalFocalLength ∧
    (verticalLinePt refTicks lensB).pointType ≠ PointType.actual ∧
    verticalLinePt refTicks lensB ≠ actualPt refTicks lensB ∧
    (aperturePagePoints refTicks [rawOf lensC]).map (fun p => p.originalFocalLength) =
      [250, 200] ∧
    ¬ (((aperturePagePoints refTicks [rawOf lensC]).map
        (fun p => p.originalFocalLength)).Chain' (· ≤ ·)) := by
  refine ⟨rfl, rfl, rfl, rfl, fun h => PointType.noConfusion h,
    fun h => PointType.noConfusion (congrArg Pt.pointType h), rfl, ?_⟩
  rw [show (aperturePagePoints refTicks [rawOf lensC]).map (fun p => p.originalFocalLength) =
    [250, 200] from rfl]
  intro h
  exact absurd (List.chain'_cons.mp h).1 (by norm_num)

/-- C5 (amended): the connector-generating chart's output is always
non-decreasing in the x (focal-length) coordinate; the aperture chart's output
is non-decreasing in the represented focal length for ascending lens sets whose
focal lengths do not exceed 200mm; in the connector chart the segment-end point
of each lens is emitted immediately before the next lens's native point (the
stable sort preserves push order at equal x); in the aperture chart the
boundary point is instead followed by the actual_for_vertical_line duplicate of
the next native value and only then by the native point. -/
theorem C5_order :
    (∀ (ticks : List ℚ) (lenses : List RawLens),
        (connectorPagePoints ticks lenses).Chain' ptLE) ∧
    (∀ (ticks : List ℚ) (lvs : List LensV), ticks ≠ [] →
        lvs.Pairwise (fun a b => a.focalLength ≤ b.focalLength) →
        (∀ l ∈ lvs, l.focalLength ≤ 200) →
        ((aperturePagePoints ticks (lvs.map rawOf)).map
            (fun p => p.originalFocalLength)).Chain' (· ≤ ·)) ∧
    (∀ (ticks : List ℚ) (pre : List LensV) (a b : LensV) (post : List LensV),
        ticks.Pairwise (· < ·) → ticks ≠ [] →
        (pre ++ a :: b :: post).Pairwise (fun p q => p.focalLength < q.focalLength) →
        SubRun [segmentEndPt a b.focalLength, connActualPt b]
          (connectorPagePoints ticks ((pre ++ a :: b :: post).map rawOf))) ∧
    (∀ (ticks : List ℚ) (pre : List LensV) (a b : LensV) (post : List LensV), ticks ≠ [] →
        SubRun [theoreticalEndPt ticks a b, verticalLinePt ticks b, actualPt ticks b]
          (aperturePagePoints ticks ((pre ++ a :: b :: post).map rawOf))) := by
  refine ⟨?_, ?_, ?_, ?_⟩
  · intro ticks lenses
    unfold connectorPagePoints
    by_cases ht : ticks = []
    · rw [if_pos ht]; exact List.chain'_nil
    · rw [if_neg ht]
      exact (List.sorted_insertionSort ptLE _).chain'
  · intro ticks lvs hne hpw h200
    unfold aperturePagePoints
    rw [if_neg hne]
    exact pageAux_ofl_chain ticks lvs hpw h200
  · intro ticks pre a b post ht hne hpw
    unfold connectorPagePoints
    rw [if_neg hne]
    rw [sortLensesByFocal_eq_self (hpw.imp (fun h => le_of_lt h))]
    rw [stableSortByX_eq_self (connAux_chain ht _ hpw)]
    exact connAux_run ticks a b pre post hpw
  · intro ticks pre a b post hne
    unfold aperturePagePoints
    rw [if_neg hne]
    exact @subRun_of_append [actualPt ticks a]
      [theoreticalEndPt ticks a b, verticalLinePt ticks b, actualPt ticks b] _
      (pageAux_run ticks a b pre post)

/-- C5 witness. -/
theorem C5_witness :
    (connectorPagePoints refTicks [rawOf lensA, rawOf lensB]).Chain' ptLE ∧
    ((aperturePagePoints refTicks ([lensA, lensB].map rawOf)).map
        (fun p => p.originalFocalLength)).Chain' (· ≤ ·) ∧
    SubRun [segmentEndPt lensA lensB.focalLength, connActualPt lensB]
      (connectorPagePoints refTicks (([] ++ lensA :: lensB :: []).map rawOf)) ∧
    SubRun [theoreticalEndPt refTicks lensA lensB, verticalLinePt refTicks lensB,
            actualPt refTicks lensB]
      (aperturePagePoints refTicks (([] ++ lensA :: lensB :: []).map rawOf)) :=
  ⟨C5_order.1 refTicks [rawOf lensA, rawOf lensB],
   C5_order.2.1 refTicks [lensA, lensB] (by decide) (by decide) (by decide),
   C5_order.2.2.1 refTicks [] lensA lensB [] (by decide) (by decide) (by decide),
   C5_order.2.2.2 refTicks [] lensA lensB [] (by decide)⟩

end PhoneCam
